import Mathlib

/-!
A verification development for the `aurifere` package manager
(AUR helper). The Python sources are shallowly embedded as Lean
functions:

* `pkgbuild.py`: `try_int` and `version_is_greater`, over a model of
  Python string splitting, `int()` parsing, and tuple/string comparison
  (mixed `int`/`str` ordering raises `TypeError` in Python 3, modelled
  with `Except`);
* `package.py`: the `Package` state machine (`trivial_diff`,
  `review_needed`, `validate_review`, `update_from_upstream`,
  `upgrade_available`, `build_and_install`, construction) over a model
  of the per-package git repository: the `master`/`upstream` branches,
  the `reviewed` tag, the checked-out branch and the working directory.
  External computations (the text `git diff` prints, the lines
  `git status --porcelain` prints, the effect of `git clean` and of
  `makepkg` on the working directory, the provider's answers) are
  oracle parameters;
* `install.py`: `Install.add_package`/`Install._update_deps`, with
  packages identified by name (`Repository.package` caches one object
  per name, so Python object equality coincides with name equality)
  and a fuel argument for the recursive dependency walk;
* `repository.py`: `Repository.package` over the persisted name→type
  store and the open-package cache.
-/

deriving instance DecidableEq for Except

namespace Aurifere

/-! ## Python string primitives -/

/-- Python `s.split(sep)` for a one-character separator, on the
character list of the string.  `"".split('-') == ['']`,
`"a--b".split('-') == ['a','','b']`. -/
def splitOnChar (c : Char) : List Char → List (List Char)
  | [] => [[]]
  | a :: as =>
    match splitOnChar c as with
    | g :: gs => if a = c then [] :: g :: gs else (a :: g) :: gs
    | [] => [[a]]

/-- `p` is a leading run of `s` (Python `s.startswith(p)` on lists). -/
def leadsWith : List Char → List Char → Bool
  | [], _ => true
  | _ :: _, [] => false
  | a :: p, b :: s => a = b && leadsWith p s

/-- Python `str.splitlines` restricted to LF line boundaries (the only
boundaries `git diff` output contains): split on `'\n'` and drop the
trailing empty piece that a final newline produces; the empty string
has no lines. -/
def splitlines (s : String) : List String :=
  let groups := (splitOnChar '\n' s.data).map String.mk
  match groups.getLast? with
  | some "" => groups.dropLast
  | _ => groups

/-- Python string `<`: lexicographic comparison of code points. -/
def pyStrLt : List Char → List Char → Bool
  | [], [] => false
  | [], _ :: _ => true
  | _ :: _, [] => false
  | a :: as, b :: bs => a.val < b.val || (a = b && pyStrLt as bs)

/-- Decimal digit run value, `none` if empty or a non-digit occurs.
(Python `int()` additionally strips whitespace and, since 3.6, accepts
single underscores between digits; version segments contain neither,
and a segment such as `"206_r0"` fails to parse either way.) -/
def digitsVal : List Char → Option Nat
  | [] => none
  | [c] => if c.isDigit then some (c.toNat - '0'.toNat) else none
  | c :: cs =>
    match digitsVal cs, c.isDigit with
    | some n, true => some ((c.toNat - '0'.toNat) * 10 ^ cs.length + n)
    | _, _ => none

/-- Python `int(s)` on a version segment: optional sign, then digits. -/
def pyInt (s : List Char) : Option Int :=
  match s with
  | '-' :: ds => (digitsVal ds).map (fun n => -(n : Int))
  | '+' :: ds => (digitsVal ds).map (fun n => (n : Int))
  | ds => (digitsVal ds).map (fun n => (n : Int))

/-! ## pkgbuild.py : `try_int` and `version_is_greater` -/

/-- Python exceptions the embedded fragments can raise. -/
inductive PyExc
  | typeError
  | valueError
  | notReviewed
  | workingDirNotClean (name : String) (files : List String)
  | buildFailure
  deriving DecidableEq, Repr

/-- `try_int(x)`: `int(x)` if that parses, else `x` itself.  The result
is a Python value that is either an `int` or a `str`. -/
def try_int (x : String) : Int ⊕ String :=
  match pyInt x.data with
  | some n => Sum.inl n
  | none => Sum.inr x

/-- Python `==` between tuple elements: `int == str` is `False`,
never an error. -/
def itemEq : Int ⊕ String → Int ⊕ String → Bool
  | Sum.inl m, Sum.inl n => m = n
  | Sum.inr s, Sum.inr t => s = t
  | _, _ => false

/-- Python ordering between tuple elements: defined within `int` and
within `str`; comparing an `int` with a `str` raises `TypeError`
in Python 3. -/
def itemCmp : Int ⊕ String → Int ⊕ String → Except PyExc Ordering
  | Sum.inl m, Sum.inl n => .ok (compare m n)
  | Sum.inr s, Sum.inr t =>
    .ok (if pyStrLt s.data t.data then .lt else if s = t then .eq else .gt)
  | _, _ => .error .typeError

/-- Python tuple comparison: scan for the first position where the
elements are not `==`-equal and order by those elements (raising
`TypeError` there if they are an `int` and a `str`); a tuple that runs
out first is smaller. -/
def pyTupleCmp : List (Int ⊕ String) → List (Int ⊕ String) → Except PyExc Ordering
  | [], [] => .ok .eq
  | [], _ :: _ => .ok .lt
  | _ :: _, [] => .ok .gt
  | a :: as, b :: bs => if itemEq a b then pyTupleCmp as bs else itemCmp a b

/-- `version_is_greater(v1, v2)` from `pkgbuild.py`:
split each version on `'-'` into `major-minor` (Python tuple unpacking
raises `ValueError` unless there are exactly two parts), compare the
tuples of `try_int`-mapped dot-segments of the majors, and on a tie
fall back to Python string `>` on the minors. -/
def version_is_greater (v1 v2 : String) : Except PyExc Bool :=
  match splitOnChar '-' v1.data, splitOnChar '-' v2.data with
  | [major1, minor1], [major2, minor2] =>
    let vtuple1 := (splitOnChar '.' major1).map (fun g => try_int (String.mk g))
    let vtuple2 := (splitOnChar '.' major2).map (fun g => try_int (String.mk g))
    match pyTupleCmp vtuple1 vtuple2 with
    | .error e => .error e
    | .ok .gt => .ok true
    | .ok .lt => .ok false
    | .ok .eq => .ok (pyStrLt minor2 minor1)
  | _, _ => .error .valueError

/-! ## package.py : `trivial_diff` -/

/-- The markers checked at offset 1 of a changed diff line:
`line.startswith(('--', '++', 'pkgver', 'md5sums', 'sha256sums',
'sha512sums', 'sha1sums'), 1)`. -/
def trivialMarkers : List String :=
  ["--", "++", "pkgver", "md5sums", "sha256sums", "sha512sums", "sha1sums"]

/-- One line of the loop body of `Package.trivial_diff`: a line that
starts with `'-'` or `'+'` is acceptable only when one of the markers
follows the first character. -/
def trivial_diff_line_ok (line : String) : Bool :=
  !(leadsWith ['-'] line.data || leadsWith ['+'] line.data) ||
    trivialMarkers.any (fun p => leadsWith p.data (line.data.drop 1))

/-- `Package.trivial_diff`, applied to the text `git diff reviewed`
printed: true iff no changed line fails the marker check. -/
def trivial_diff (diff : String) : Bool :=
  (splitlines diff).all trivial_diff_line_ok

/-! ## The per-package git repository

A working directory snapshot is abstract content (`WDir`); a commit is
an id paired with the tree it records.  The state keeps what the code
reads: the tips of `master` and `upstream`, the target of the
`reviewed` tag, the version tags, the checked-out branch, the working
directory, and a counter for fresh commit ids.  What `git diff` and
`git status --porcelain` print for given trees, and how `git clean` /
`makepkg` / `provider.fetch_upstream()` rewrite the working directory,
are oracle parameters of the operations that use them. -/

/-- Abstract content of a tree / working directory. -/
abbrev WDir := String

structure CommitRef where
  id : Nat
  tree : WDir
  deriving DecidableEq, Repr

inductive Br
  | master
  | upstream
  deriving DecidableEq, Repr

structure GitState where
  master : CommitRef
  upstream : CommitRef
  /-- Target of the `reviewed` tag. -/
  reviewed : CommitRef
  versionTags : List (String × Nat)
  /-- The checked-out branch (`HEAD`). -/
  head : Br
  worktree : WDir
  nextId : Nat
  deriving DecidableEq, Repr

/-- The commit `HEAD` points at. -/
def headRef (st : GitState) : CommitRef :=
  match st.head with
  | .master => st.master
  | .upstream => st.upstream

/-- `Git.switch_branch` (`git checkout <branch> --quiet`); the working
directory becomes the branch's tree (the code only switches branches
with a clean tree). -/
def switch_branch (b : Br) (st : GitState) : GitState :=
  { st with head := b,
            worktree := (match b with
                         | .master => st.master
                         | .upstream => st.upstream).tree }

/-- `Git.commit_all` with a string message: a fresh commit recording
the working directory, advancing the checked-out branch. -/
def commit_all (st : GitState) : GitState :=
  let c : CommitRef := ⟨st.nextId, st.worktree⟩
  match st.head with
  | .master => { st with master := c, nextId := st.nextId + 1 }
  | .upstream => { st with upstream := c, nextId := st.nextId + 1 }

/-- `Git.tag v` for a version tag: tags the commit `HEAD` points at. -/
def tag_version (v : String) (st : GitState) : GitState :=
  { st with versionTags := (v, (headRef st).id) :: st.versionTags }

/-- The state `git init` + empty initial commit + `git branch upstream`
+ `git tag reviewed` + `git tag empty` produce (`Package.__init__` on a
missing directory). -/
def freshGit : GitState :=
  { master := ⟨0, ""⟩, upstream := ⟨0, ""⟩, reviewed := ⟨0, ""⟩,
    versionTags := [], head := .master, worktree := "", nextId := 1 }

/-- The git/build commands a `Package` operation issues, in order.
Read-only queries (`status`, `show-ref`, `diff`) are not recorded:
the traces witness which state-changing and external commands ran. -/
inductive Op
  | gitInit
  | branchCreate
  | tagOp (t : String)
  | checkout (b : Br)
  | commit (msg : String)
  | fetchUpstream
  | resetHard
  | cleanOp
  | makepkg
  deriving DecidableEq, Repr

/-- Outcome of a `Package` operation: the Python result (an exception
or normal return), the git state when control returns, and the trace
of state-changing/external commands that ran. -/
structure GOutcome where
  result : Except PyExc Unit
  state : GitState
  trace : List Op
  deriving DecidableEq, Repr

/-! ## package.py : the Package state machine -/

/-- The provider capability (`providers/aur.py`): `upstream_version()`
returns a version string or `None`; `fetch_upstream()` replaces the
working directory's contents (except the VCS metadata) with the
fetched snapshot. -/
structure Provider where
  upstreamVersion : Option String
  fetchedTree : WDir
  deriving DecidableEq, Repr

/-- `Package.validate_review`: `git tag --force reviewed`, i.e. move
the `reviewed` tag to the commit `HEAD` points at. -/
def validate_review (st : GitState) : GitState :=
  { st with reviewed := headRef st }

/-- `Package.review_needed`, with the text `git diff reviewed` prints
supplied by the oracle `diffFn` applied to the `reviewed` tree and the
working directory.  Returns the Python boolean and the state after the
call (a trivial diff is auto-validated). -/
def review_needed (diffFn : WDir → WDir → String) (st : GitState) :
    Bool × GitState :=
  if st.reviewed.id ≠ st.master.id then
    if trivial_diff (diffFn st.reviewed.tree st.worktree) then
      (false, validate_review st)
    else
      (true, st)
  else
    (false, st)

/-- `Package.update_from_upstream`.  `versionFn` is the oracle for
`self.version()` on a working directory (`none` models the caught
`NoPKGBUILDException` of a missing PKGBUILD).  With no provider the
method returns `False` at once.  Otherwise it checks out `upstream`,
reads the recorded and the upstream versions and, unless they are
equal strings, fetches, commits all changes with the new version as
message and tags it — so when `upstream_version()` returned `None`,
`commit_all(None)` builds a git command line containing `None` and
`subprocess` raises `TypeError` before `master` is restored.  On the
no-fetch path and after a successful fetch it checks out `master`. -/
def update_from_upstream (versionFn : WDir → Option String)
    (prov : Option Provider) (st : GitState) : GOutcome :=
  match prov with
  | none => ⟨.ok (), st, []⟩
  | some p =>
    let st1 := switch_branch .upstream st
    let version := versionFn st1.worktree
    let newVersion := p.upstreamVersion
    if version.isNone || version ≠ newVersion then
      let st2 := { st1 with worktree := p.fetchedTree }
      match newVersion with
      | none =>
        ⟨.error .typeError, st2, [.checkout .upstream, .fetchUpstream]⟩
      | some v =>
        let st3 := tag_version v (commit_all st2)
        ⟨.ok (), switch_branch .master st3,
         [.checkout .upstream, .fetchUpstream, .commit v, .tagOp v,
          .checkout .master]⟩
    else
      ⟨.ok (), switch_branch .master st1,
       [.checkout .upstream, .checkout .master]⟩

/-- `Package.apply_modifications`: `git reset --hard upstream`, moving
the checked-out branch and the working directory to `upstream`'s
commit. -/
def apply_modifications (st : GitState) : GitState :=
  match st.head with
  | .master => { st with master := st.upstream, worktree := st.upstream.tree }
  | .upstream => { st with worktree := st.upstream.tree }

/-- `Package.__init__` after the attribute set-up: if the directory
does not exist, initialize the git repository; refuse to work on an
unclean working directory; if no PKGBUILD is present, fetch from
upstream and apply modifications.  `statusFn` is the oracle for the
lines `git status --porcelain --untracked-files=no` prints given the
`HEAD` tree and the working directory. -/
def packageInit (name : String) (prov : Option Provider)
    (statusFn : WDir → WDir → List String) (versionFn : WDir → Option String)
    (dirExists pkgbuildExists : Bool) (st0 : GitState) : GOutcome :=
  let init : GitState × List Op :=
    if dirExists then (st0, [])
    else (freshGit, [.gitInit, .branchCreate, .tagOp "reviewed", .tagOp "empty"])
  let st1 := init.1
  let modified := statusFn (headRef st1).tree st1.worktree
  if modified ≠ [] then
    ⟨.error (.workingDirNotClean name modified), st1, init.2⟩
  else if pkgbuildExists then
    ⟨.ok (), st1, init.2⟩
  else
    let o := update_from_upstream versionFn prov st1
    match o.result with
    | .error e => ⟨.error e, o.state, init.2 ++ o.trace⟩
    | .ok _ => ⟨.ok (), apply_modifications o.state,
                init.2 ++ o.trace ++ [.resetHard]⟩

/-- Result of `Package.upgrade_available`: whether the
`version_is_greater` comparison was evaluated, and the truthiness of
the returned Python value (`pkg and upstream_version and
version_is_greater(...)` returns a falsy non-boolean when it
short-circuits). -/
structure UpgradeCheck where
  ranComparison : Bool
  value : Except PyExc Bool
  deriving DecidableEq, Repr

/-- `Package.upgrade_available`.  `inst` is what
`pacman.installed(name)` reports: the installed version, or `none`. -/
def upgrade_available (prov : Option Provider) (inst : Option String) :
    UpgradeCheck :=
  match prov with
  | none => ⟨false, .ok false⟩
  | some p =>
    match inst, p.upstreamVersion with
    | none, _ => ⟨false, .ok false⟩
    | some _, none => ⟨false, .ok false⟩
    | some iv, some uv =>
      match version_is_greater uv iv with
      | .ok b => ⟨true, .ok b⟩
      | .error e => ⟨true, .error e⟩

/-- The oracles `Package.build_and_install` consults: the diff text
for `review_needed`, the status lines after cleaning, the effect of
`makepkg` and of `git clean` on the working directory, and whether
`makepkg` exits successfully. -/
structure BuildEnv where
  diffFn : WDir → WDir → String
  statusFn : WDir → WDir → List String
  buildFn : WDir → WDir
  cleanFn : WDir → WDir
  makepkgOk : Bool

/-- `Package.build_and_install`: raise `NotReviewedException` if
review is still needed; otherwise run `makepkg` in the directory and,
in the `finally` block, `git clean`; if the tree is still dirty,
`git reset --hard` it (logging a warning); a `makepkg` failure
propagates after the cleanup. -/
def build_and_install (env : BuildEnv) (st : GitState) : GOutcome :=
  match review_needed env.diffFn st with
  | (true, st1) => ⟨.error .notReviewed, st1, []⟩
  | (false, st1) =>
    let stB := { st1 with worktree := env.buildFn st1.worktree }
    let stC := { stB with worktree := env.cleanFn stB.worktree }
    let dirty := env.statusFn (headRef stC).tree stC.worktree
    let after : GitState × List Op :=
      if dirty = [] then (stC, [])
      else ({ stC with worktree := (headRef stC).tree }, [.resetHard])
    ⟨if env.makepkgOk then .ok () else .error .buildFailure,
     after.1, [.makepkg, .cleanOp] ++ after.2⟩

/-! ## install.py : the Install batch

Packages are identified by name: `Repository.package` returns one
cached `Package` object per name, so Python `==` (object identity) on
the queued packages coincides with name equality.  The environment
holds the three external predicates the walk consults:
`pacman.installed`, whether `repo.package(dep)` succeeds (it raises
`PackageNotInRepositoryException` exactly for names the repository
cannot manage), and the dependency names a package's PKGBUILD
declares (`pkgbuild().all_depends()`). -/

structure IEnv where
  installedP : String → Bool
  localPkg : String → Bool
  deps : String → List String

structure InstallState where
  to_install : List String
  /-- `(dependency, dependent)` pairs, in the order
  `self.dependencies[dep_pkg].append(package)` ran. -/
  dependencies : List (String × String)
  /-- `(dependent, dependency name)` pairs recorded for pacman. -/
  pacman_dependencies : List (String × String)
  deriving DecidableEq, Repr

def emptyInstall : InstallState := ⟨[], [], []⟩

/-- The loop of `Install._update_deps(pkg)`, over the remaining
dependency names, parameterized by the recursive `add_package` call
`ap` (always invoked as `add_package(dep_pkg, install_before=True)`).
A dependency the repository can manage is added and the dependent
relationship recorded; any other name goes to
`pacman_dependencies`. -/
def update_deps (env : IEnv) (ap : String → InstallState → Option InstallState)
    (pkg : String) : List String → InstallState → Option InstallState
  | [], st => some st
  | dep :: rest, st =>
    if env.localPkg dep then
      match ap dep st with
      | none => none
      | some st2 =>
        update_deps env ap pkg rest
          { st2 with dependencies := st2.dependencies ++ [(dep, pkg)] }
    else
      update_deps env ap pkg rest
        { st with pacman_dependencies := st.pacman_dependencies ++ [(pkg, dep)] }

/-- `Install.add_package(pkg, force, install_before)`: skip when not
forced and already installed; skip when already queued; otherwise
insert at the front (`install_before`) or the back and walk the
declared dependencies.  The Python recursion terminates because a
recursive call only descends on a newly queued package; `fuel` bounds
the recursion depth and `none` means it was exhausted. -/
def add_package (env : IEnv) :
    Nat → String → Bool → Bool → InstallState → Option InstallState
  | 0, _, _, _, _ => none
  | fuel + 1, pkg, force, install_before, st =>
    if !force && env.installedP pkg then some st
    else if pkg ∈ st.to_install then some st
    else
      let st1 := { st with
        to_install := if install_before then pkg :: st.to_install
                      else st.to_install ++ [pkg] }
      update_deps env (fun d s => add_package env fuel d false true s)
        pkg (env.deps pkg) st1

/-! ## repository.py : Repository.package -/

inductive PkgObj
  /-- Constructed as `AurPackage(name, self)` (AUR-backed). -/
  | aurPkg (name : String)
  /-- Constructed as `Package(name, self)` (manual, no provider). -/
  | manualPkg (name : String)
  deriving DecidableEq, Repr

inductive RepoErr
  | packageNotInRepository
  | valueError
  deriving DecidableEq, Repr

/-- Python `dict` lookup on an association list. -/
def assoc (k : String) : List (String × α) → Option α
  | [] => none
  | (a, b) :: rest => if a = k then some b else assoc k rest

/-- Python `dict` assignment on an association list. -/
def assocSet (k : String) (v : α) : List (String × α) → List (String × α)
  | [] => [(k, v)]
  | (a, b) :: rest => if a = k then (k, v) :: rest else (a, b) :: assocSet k v rest

/-- A `Repository`'s mutable state: the persisted `types.db` shelve
and the process-local cache of open packages. -/
structure RepoState where
  db : List (String × String)
  openPkgs : List (String × PkgObj)
  deriving DecidableEq, Repr

structure RepoOutcome where
  state : RepoState
  result : Except RepoErr PkgObj
  /-- Whether the AUR-gone warning was logged. -/
  warned : Bool
  deriving DecidableEq, Repr

/-- The type `Repository.package` resolves for `name` before the
dispatch: the persisted type if one exists, else the `type`
argument. -/
def effType (st : RepoState) (name ty : String) : String :=
  match assoc name st.db with
  | some t => t
  | none => ty

/-- `Repository.package(name, type)`.  `aurOk name` tells whether
`AurPackage(name, self)` constructs (false models the raised
`NotInAURException`); Package construction itself is assumed to
succeed (its own failures are separate exceptions outside this
function's dispatch).  On success the resolved type and the package
are stored before returning. -/
def repoPackage (aurOk : String → Bool) (st : RepoState) (name ty : String) :
    RepoOutcome :=
  match assoc name st.openPkgs with
  | some p => ⟨st, .ok p, false⟩
  | none =>
    let ty1 := effType st name ty
    if ty1 = "aur" then
      if aurOk name then
        ⟨⟨assocSet name "aur" st.db, assocSet name (.aurPkg name) st.openPkgs⟩,
         .ok (.aurPkg name), false⟩
      else
        ⟨⟨assocSet name "aur" st.db, assocSet name (.manualPkg name) st.openPkgs⟩,
         .ok (.manualPkg name), true⟩
    else if ty1 = "manual" then
      ⟨⟨assocSet name "manual" st.db, assocSet name (.manualPkg name) st.openPkgs⟩,
       .ok (.manualPkg name), false⟩
    else if ty1 = "default" then
      if aurOk name then
        ⟨⟨assocSet name "aur" st.db, assocSet name (.aurPkg name) st.openPkgs⟩,
         .ok (.aurPkg name), false⟩
      else
        ⟨st, .error .packageNotInRepository, false⟩
    else
      ⟨st, .error .valueError, false⟩

/-! ## Index of a package in `to_install` -/

/-- `list.index(a)` for the queued packages (0-based, first hit). -/
def idxOf (a : String) : List String → Nat
  | [] => 0
  | b :: l => if b = a then 0 else idxOf a l + 1

/-! ## Concrete instances used by the witnesses and counterexamples -/

/-- No deps, nothing installed, everything locally managed. -/
def envW6 : IEnv := ⟨fun _ => false, fun _ => true, fun _ => []⟩

/-- Batch state after `add_package("a")` from an empty batch under
`envW6`. -/
def stW6 : InstallState := ⟨["a"], [], []⟩

/-- `a` depends on `b` and `c`; `c` depends on `b`; nothing
installed; everything locally managed. -/
def envC2 : IEnv :=
  ⟨fun _ => false, fun _ => true,
   fun n => if n = "a" then ["b", "c"] else if n = "c" then ["b"] else []⟩

/-- `a` depends on `b`; `b` is already installed on the system;
everything locally managed. -/
def envC2i : IEnv :=
  ⟨fun n => n = "b", fun _ => true, fun n => if n = "a" then ["b"] else []⟩

/-- `a` depends on `b`; nothing installed; everything local. -/
def envW2 : IEnv :=
  ⟨fun _ => false, fun _ => true, fun n => if n = "a" then ["b"] else []⟩

/-- A state whose `master` tip moved past the `reviewed` tag. -/
def stW1 : GitState := ⟨⟨1, "m"⟩, ⟨0, "u"⟩, ⟨0, "u"⟩, [], .master, "m", 2⟩

/-- Oracles under which the diff against `reviewed` is non-trivial. -/
def benvW : BuildEnv := ⟨fun _ _ => "+source=newurl", fun _ _ => [], id, id, true⟩

/-- A diff oracle (its value is irrelevant to the theorem using it). -/
def dW5 : WDir → WDir → String := fun _ _ => ""

/-- A state with `master` checked out and all refs distinct. -/
def stW5 : GitState := ⟨⟨3, "m"⟩, ⟨2, "u"⟩, ⟨1, "r"⟩, [], .master, "m", 4⟩

/-- A clean tracked state. -/
def stW7 : GitState := ⟨⟨1, "m"⟩, ⟨0, "u"⟩, ⟨1, "m"⟩, [], .master, "x", 2⟩

/-- A status oracle reporting one modified file. -/
def statusW7 : WDir → WDir → List String := fun _ _ => [" M PKGBUILD"]

/-- A provider whose `upstream_version()` returns `None`. -/
def provW9 : Provider := ⟨none, "fetched"⟩

/-- A tracked state, everything at the initial commit. -/
def stW9 : GitState := ⟨⟨0, "t"⟩, ⟨0, "t"⟩, ⟨0, "t"⟩, [], .master, "t", 1⟩

/-- A provider reporting upstream version `1.2-1`. -/
def provW9b : Provider := ⟨some "1.2-1", "fetched"⟩

/-- A provider whose `upstream_version()` returns `None`. -/
def provW10 : Provider := ⟨none, ""⟩

/-- The repository state persisting type `aur` for `foo`. -/
def stW8 : RepoState := ⟨[("foo", "aur")], []⟩

/-! ## Helper lemmas -/

/-- When `review_needed` answers `true` it took the
non-trivial-diff branch, which touches nothing. -/
theorem review_needed_true_eq {d : WDir → WDir → String} {st : GitState}
    (h : (review_needed d st).1 = true) : review_needed d st = (true, st) := by
  by_cases h1 : st.reviewed.id ≠ st.master.id
  · by_cases h2 : trivial_diff (d st.reviewed.tree st.worktree) = true
    · simp [review_needed, h1, h2] at h
    · simp [review_needed, h1, h2]
  · simp [review_needed, h1] at h

/-- When the `reviewed` tag already sits on `master`'s tip,
`review_needed` answers `false` and touches nothing. -/
theorem review_needed_refEq {d : WDir → WDir → String} {st : GitState}
    (h : st.reviewed.id = st.master.id) : review_needed d st = (false, st) := by
  simp [review_needed, h]

/-- Iterated `review_needed` calls (each call continues from the state
the previous one produced). -/
def rnIter (d : WDir → WDir → String) : Nat → GitState → GitState
  | 0, st => st
  | n + 1, st => rnIter d n (review_needed d st).2

theorem assoc_set_self (k : String) (v : α) (l : List (String × α)) :
    assoc k (assocSet k v l) = some v := by
  induction l with
  | nil => simp [assoc, assocSet]
  | cons hd tl ih =>
    obtain ⟨a, b⟩ := hd
    by_cases h : a = k <;> simp [assoc, assocSet, h, ih]

/-! ## Claim theorems -/

/-- C1: when `review_needed()` answers `true`, `build_and_install`
raises `NotReviewedException`, runs no external build command (the
trace is empty, in particular `makepkg` never runs) and leaves the
package directory's git state unchanged. -/
theorem buildAndInstall_refuses_unreviewed (env : BuildEnv) (st : GitState)
    (h : (review_needed env.diffFn st).1 = true) :
    build_and_install env st = ⟨.error .notReviewed, st, []⟩ := by
  unfold build_and_install
  rw [review_needed_true_eq h]

theorem buildAndInstall_refuses_unreviewed_witness :
    (review_needed benvW.diffFn stW1).1 = true ∧
    build_and_install benvW stW1 = ⟨.error .notReviewed, stW1, []⟩ :=
  ⟨by decide, buildAndInstall_refuses_unreviewed benvW stW1 (by decide)⟩

/-- C3 counterexample: the claim's general rule — a changed line is
ignored only if the text after the `+`/`-` marker starts with
`pkgver` or a sums field, and any other changed line makes the whole
diff non-trivial — is false of the code: the diff whose only line is
the added line `+--x` is classified trivial, although `--x` starts
with neither `pkgver` nor any sums field (the code's marker check
also accepts `--` and `++` after the marker, on content lines just as
on file-header lines). -/
theorem trivialDiff_marker_counterexample :
    trivial_diff "+--x" = true ∧
    leadsWith ['+'] ("+--x" : String).data = true ∧
    (["pkgver", "md5sums", "sha256sums", "sha512sums", "sha1sums"].any
       fun p => leadsWith p.data (("+--x" : String).data.drop 1)) = false := by
  decide

/-- C3 amended: the diff whose only changed lines are `-pkgver=1.0`
and `+pkgver=1.1` is trivial; adding the changed line `+source=newurl`
makes it non-trivial; and in general a diff is trivial exactly when
every line starting with `-` or `+` continues (after that marker) with
one of `--`, `++`, `pkgver`, `md5sums`, `sha256sums`, `sha512sums`,
`sha1sums` — any line changed otherwise makes the whole diff
non-trivial. -/
theorem trivialDiff_classification :
    trivial_diff "-pkgver=1.0\n+pkgver=1.1" = true ∧
    trivial_diff "-pkgver=1.0\n+pkgver=1.1\n+source=newurl" = false ∧
    ∀ diff : String, trivial_diff diff = true ↔
      ∀ line ∈ splitlines diff,
        (leadsWith ['-'] line.data || leadsWith ['+'] line.data) = true →
        (trivialMarkers.any fun p => leadsWith p.data (line.data.drop 1)) = true := by
  refine ⟨by decide, by decide, fun diff => ?_⟩
  unfold trivial_diff
  rw [List.all_eq_true]
  refine ⟨fun h line hm hs => ?_, fun h line hm => ?_⟩
  · have := h line hm
    simpa [trivial_diff_line_ok, hs] using this
  · by_cases hs : (leadsWith ['-'] line.data || leadsWith ['+'] line.data) = true
    · have hx := h line hm hs
      simp only [trivial_diff_line_ok, hs, Bool.not_true, Bool.false_or]
      exact hx
    · rw [Bool.not_eq_true] at hs
      simp [trivial_diff_line_ok, hs]

/-- C4: `version_is_greater("2.0.2-1", "2.0.1-2")` returns `True` and
`version_is_greater("2.12.4-5", "2.12.4-5")` returns `False`, but
`version_is_greater("1.0.27.206_r0-1", "1.0.27.206-1")` does not
return `True` as the claim (and the repository's own test
`test_ugly_version_numbers`) states: comparing the dot-segment tuples
`(1, 0, 27, '206_r0')` and `(1, 0, 27, 206)` orders the string
`'206_r0'` against the int `206`, which raises `TypeError` in
Python 3. -/
theorem versionIsGreater_eval :
    version_is_greater "2.0.2-1" "2.0.1-2" = .ok true ∧
    version_is_greater "2.12.4-5" "2.12.4-5" = .ok false ∧
    version_is_greater "1.0.27.206_r0-1" "1.0.27.206-1" = .error .typeError :=
  ⟨rfl, rfl, rfl⟩

/-- C5: with `master` checked out (as it is whenever the lifecycle
calls these methods), `review_needed` answers `false` immediately
after `validate_review`, repeated `review_needed` calls keep
answering `false` without moving anything, and the answer stays
`false` in any later state whose `master` tip has not advanced and
whose `reviewed` tag is untouched. -/
theorem reviewNeeded_false_after_validateReview (d : WDir → WDir → String)
    (st : GitState) (h : st.head = Br.master) :
    (review_needed d (validate_review st)).1 = false ∧
    (∀ n, rnIter d n (validate_review st) = validate_review st) ∧
    (∀ st2 : GitState, st2.master.id = (validate_review st).master.id →
      st2.reviewed = (validate_review st).reviewed →
      review_needed d st2 = (false, st2)) := by
  have hrev : (validate_review st).reviewed = st.master := by
    simp [validate_review, headRef, h]
  have hr : (validate_review st).reviewed.id = (validate_review st).master.id := by
    rw [hrev]; rfl
  have hfix : review_needed d (validate_review st) = (false, validate_review st) :=
    review_needed_refEq hr
  refine ⟨by rw [hfix], fun n => ?_, fun st2 h2m h2r => ?_⟩
  · induction n with
    | zero => rfl
    | succ n ih => rw [rnIter, hfix, ih]
  · refine review_needed_refEq ?_
    rw [h2r, hrev, h2m]
    rfl

theorem reviewNeeded_false_after_validateReview_witness :
    stW5.head = Br.master ∧
    (review_needed dW5 (validate_review stW5)).1 = false ∧
    rnIter dW5 3 (validate_review stW5) = validate_review stW5 :=
  ⟨rfl, (reviewNeeded_false_after_validateReview dW5 stW5 rfl).1,
   (reviewNeeded_false_after_validateReview dW5 stW5 rfl).2.1 3⟩

/-- C7: constructing a `Package` over a tracked directory (the
directory exists) whose working tree is dirty raises
`WorkingDirNotCleanException` carrying the package name and the
modified files; the construction issues no state-changing git command
(no commit, reset or clean — the trace is empty), the state is
untouched, and neither the upstream fetch nor the recipe load of the
remaining lifecycle runs. -/
theorem packageInit_dirty_tree_fatal (name : String) (prov : Option Provider)
    (statusFn : WDir → WDir → List String) (versionFn : WDir → Option String)
    (pkgbuildExists : Bool) (st : GitState) (m : List String)
    (hm : statusFn (headRef st).tree st.worktree = m) (hne : m ≠ []) :
    packageInit name prov statusFn versionFn true pkgbuildExists st =
      ⟨.error (.workingDirNotClean name m), st, []⟩ := by
  simp [packageInit, hm, hne]

theorem packageInit_dirty_tree_fatal_witness :
    statusW7 (headRef stW7).tree stW7.worktree = [" M PKGBUILD"] ∧
    ([" M PKGBUILD"] : List String) ≠ [] ∧
    packageInit "testpkg" none statusW7 (fun _ => none) true true stW7 =
      ⟨.error (.workingDirNotClean "testpkg" [" M PKGBUILD"]), stW7, []⟩ :=
  ⟨rfl, by decide,
   packageInit_dirty_tree_fatal "testpkg" none statusW7 (fun _ => none) true stW7
     [" M PKGBUILD"] rfl (by decide)⟩

/-- C9 counterexample: on a package whose provider reports no upstream
version (`upstream_version()` is `None`), `update_from_upstream` takes
the fetch branch (`not version or version != new_version` holds) and
then `commit_all(None)` raises `TypeError`, so the call ends with
`upstream` still checked out — it does not end by switching back to
`master`. -/
theorem updateFromUpstream_none_version_counterexample :
    (update_from_upstream (fun _ => none) (some provW9) stW9).result =
      .error .typeError ∧
    (update_from_upstream (fun _ => none) (some provW9) stW9).state.head ≠
      Br.master ∧
    (update_from_upstream (fun _ => none) (some provW9) stW9).trace.getLast? ≠
      some (.checkout Br.master) := by
  decide

/-- C9 amended: `update_from_upstream` on a package with no provider
is a no-op — it returns at once with no branch switch, commit or tag
(the trace is empty and the state unchanged); and whenever it is
invoked on a package whose provider reports an upstream version
string, it returns normally with `master` checked out, ending with a
switch back to `master`, whether or not a new version was fetched.
(When the provider reports no upstream version, the call instead
raises `TypeError` out of `commit_all(None)` before restoring
`master`.) -/
theorem updateFromUpstream_master_restored (versionFn : WDir → Option String)
    (st : GitState) :
    (update_from_upstream versionFn none st = ⟨.ok (), st, []⟩) ∧
    (∀ p : Provider, ∀ v : String, p.upstreamVersion = some v →
      (update_from_upstream versionFn (some p) st).result = .ok () ∧
      (update_from_upstream versionFn (some p) st).state.head = Br.master ∧
      (update_from_upstream versionFn (some p) st).trace.getLast? =
        some (.checkout Br.master)) := by
  refine ⟨rfl, fun p v hv => ?_⟩
  simp only [update_from_upstream, hv]
  split
  · exact ⟨rfl, rfl, rfl⟩
  · exact ⟨rfl, rfl, rfl⟩

theorem updateFromUpstream_master_restored_witness :
    provW9b.upstreamVersion = some "1.2-1" ∧
    (update_from_upstream (fun _ => none) (some provW9b) stW9).result = .ok () ∧
    (update_from_upstream (fun _ => none) (some provW9b) stW9).state.head =
      Br.master ∧
    (update_from_upstream (fun _ => none) (some provW9b) stW9).trace.getLast? =
      some (.checkout Br.master) :=
  ⟨rfl, (updateFromUpstream_master_restored (fun _ => none) stW9).2 provW9b
    "1.2-1" rfl⟩

/-- C10: `upgrade_available` reports no upgrade — the returned Python
value is falsy and no exception escapes — whenever the provider's
`upstream_version()` returns `None`, even with a provider present and
the package installed; and the `version_is_greater` comparison is
evaluated exactly when the package has a provider, is installed, and
an upstream version string exists. -/
theorem upgradeAvailable_null_upstream (prov : Option Provider)
    (inst : Option String) :
    (∀ p : Provider, prov = some p → p.upstreamVersion = none →
      upgrade_available prov inst = ⟨false, .ok false⟩) ∧
    ((upgrade_available prov inst).ranComparison = true ↔
      inst.isSome = true ∧ ∃ p v, prov = some p ∧ p.upstreamVersion = some v) := by
  constructor
  · rintro p rfl hv
    cases inst <;> simp [upgrade_available, hv]
  · cases prov with
    | none => simp [upgrade_available]
    | some p =>
      cases inst with
      | none => simp [upgrade_available]
      | some iv =>
        cases hu : p.upstreamVersion with
        | none => simp [upgrade_available, hu]
        | some uv =>
          cases hv : version_is_greater uv iv <;>
            simp [upgrade_available, hu, hv]

theorem upgradeAvailable_null_upstream_witness :
    some provW10 = some provW10 ∧ provW10.upstreamVersion = none ∧
    upgrade_available (some provW10) (some "1.0-1") = ⟨false, .ok false⟩ :=
  ⟨rfl, rfl,
   (upgradeAvailable_null_upstream (some provW10) (some "1.0-1")).1 provW10
     rfl rfl⟩

/-- C8: `Repository.package` raises `PackageNotInRepositoryException`
exactly when the name is not in the open-package cache, the effective
type (persisted type winning over the argument) is `"default"`, and
the AUR-style provider reports the name not found; when the effective
type is `"aur"` and the provider reports not found, it instead
returns a manual (no-provider) `Package` with a warning; and on every
successful cache-miss resolution the resolved type is persisted
before returning. -/
theorem repoPackage_resolution (aurOk : String → Bool) (st : RepoState)
    (name ty : String) :
    ((repoPackage aurOk st name ty).result = .error .packageNotInRepository ↔
      assoc name st.openPkgs = none ∧ effType st name ty = "default" ∧
        aurOk name = false) ∧
    (assoc name st.openPkgs = none → effType st name ty = "aur" →
      aurOk name = false →
      repoPackage aurOk st name ty =
        ⟨⟨assocSet name "aur" st.db, assocSet name (.manualPkg name) st.openPkgs⟩,
         .ok (.manualPkg name), true⟩) ∧
    (assoc name st.openPkgs = none →
      ∀ p : PkgObj, (repoPackage aurOk st name ty).result = .ok p →
        assoc name (repoPackage aurOk st name ty).state.db =
          some (if effType st name ty = "default" then "aur"
                else effType st name ty)) := by
  cases hopen : assoc name st.openPkgs with
  | some p => simp [repoPackage, hopen]
  | none =>
    by_cases h1 : effType st name ty = "aur"
    · by_cases ha : aurOk name <;>
        simp [repoPackage, hopen, h1, ha, assoc_set_self]
    · by_cases h2 : effType st name ty = "manual"
      · simp [repoPackage, hopen, h1, h2, assoc_set_self]
      · by_cases h3 : effType st name ty = "default"
        · by_cases ha : aurOk name <;>
            simp [repoPackage, hopen, h1, h2, h3, ha, assoc_set_self]
        · simp [repoPackage, hopen, h1, h2, h3]

theorem repoPackage_resolution_witness :
    assoc "foo" (stW8.openPkgs) = none ∧
    effType stW8 "foo" "default" = "aur" ∧
    (fun _ : String => false) "foo" = false ∧
    repoPackage (fun _ => false) stW8 "foo" "default" =
      ⟨⟨[("foo", "aur")], [("foo", PkgObj.manualPkg "foo")]⟩,
       .ok (.manualPkg "foo"), true⟩ :=
  ⟨rfl, rfl, rfl,
   (repoPackage_resolution (fun _ => false) stW8 "foo" "default").2.1 rfl rfl rfl⟩

/-! ## install.py lemmas -/

theorem idxOf_lt_length {a : String} :
    ∀ {l : List String}, a ∈ l → idxOf a l < l.length := by
  intro l
  induction l with
  | nil => intro h; cases h
  | cons b l ih =>
    intro h
    by_cases hb : b = a
    · simp [idxOf, hb]
    · have : a ∈ l := by
        cases h with
        | head => exact absurd rfl hb
        | tail _ h => exact h
      simpa [idxOf, hb] using ih this

theorem idxOf_append_left {a : String} :
    ∀ {l₁ : List String}, a ∈ l₁ → ∀ l₂, idxOf a (l₁ ++ l₂) = idxOf a l₁ := by
  intro l₁
  induction l₁ with
  | nil => intro h; cases h
  | cons b l ih =>
    intro h l₂
    by_cases hb : b = a
    · simp [idxOf, hb]
    · have : a ∈ l := by
        cases h with
        | head => exact absurd rfl hb
        | tail _ h => exact h
      simp [idxOf, hb, ih this]

theorem idxOf_append_not_mem {a : String} :
    ∀ {l₁ : List String}, a ∉ l₁ → ∀ l₂,
      idxOf a (l₁ ++ l₂) = l₁.length + idxOf a l₂ := by
  intro l₁
  induction l₁ with
  | nil => intro _ l₂; simp
  | cons b l ih =>
    intro h l₂
    have hb : b ≠ a := fun hba => h (hba ▸ List.mem_cons_self b l)
    have hl : a ∉ l := fun hm => h (List.mem_cons_of_mem b hm)
    simp [idxOf, hb, ih hl, Nat.succ_add, Nat.add_comm, Nat.add_assoc]

/-- If the recursive call preserves `Nodup to_install`, so does the
dependency walk (it changes `to_install` only through that call). -/
theorem update_deps_nodup (env : IEnv)
    (ap : String → InstallState → Option InstallState) (pkg : String)
    (hap : ∀ d s s', s.to_install.Nodup → ap d s = some s' →
      s'.to_install.Nodup) :
    ∀ (l : List String) (st st' : InstallState), st.to_install.Nodup →
      update_deps env ap pkg l st = some st' → st'.to_install.Nodup := by
  intro l
  induction l with
  | nil =>
    intro st st' h he
    cases he
    exact h
  | cons dep rest ih =>
    intro st st' h he
    rw [update_deps] at he
    split at he
    · cases hd : ap dep st with
      | none => rw [hd] at he; exact absurd he (by simp)
      | some st2 =>
        rw [hd] at he
        exact ih { st2 with dependencies := st2.dependencies ++ [(dep, pkg)] }
          st' (hap dep st st2 h hd) he
    · exact ih
        { st with pacman_dependencies := st.pacman_dependencies ++ [(pkg, dep)] }
        st' h he

/-- `add_package` preserves `Nodup to_install`: a package is inserted
only after the `pkg in self.to_install` check. -/
theorem add_package_nodup (env : IEnv) :
    ∀ (fuel : Nat) (pkg : String) (force ib : Bool) (st st' : InstallState),
      st.to_install.Nodup → add_package env fuel pkg force ib st = some st' →
      st'.to_install.Nodup := by
  intro fuel
  induction fuel with
  | zero =>
    intro pkg force ib st st' h he
    exact absurd he (by simp [add_package])
  | succ fuel ih =>
    intro pkg force ib st st' h he
    rw [add_package] at he
    split at he
    · cases he; exact h
    · split at he
      · cases he; exact h
      · rename_i hmem
        refine update_deps_nodup env _ pkg
          (fun d s s' hs hd => ih d false true s s' hs hd)
          (env.deps pkg) _ st' ?_ he
        cases ib <;> simp [List.nodup_append, h, hmem]

/-- If the recursive call only prepends to `to_install`, so does the
dependency walk. -/
theorem update_deps_extends (env : IEnv)
    (ap : String → InstallState → Option InstallState) (pkg : String)
    (hap : ∀ d s s', ap d s = some s' →
      ∃ ds, s'.to_install = ds ++ s.to_install) :
    ∀ (l : List String) (st st' : InstallState),
      update_deps env ap pkg l st = some st' →
      ∃ ds, st'.to_install = ds ++ st.to_install := by
  intro l
  induction l with
  | nil =>
    intro st st' he
    cases he
    exact ⟨[], rfl⟩
  | cons dep rest ih =>
    intro st st' he
    rw [update_deps] at he
    split at he
    · cases hd : ap dep st with
      | none => rw [hd] at he; exact absurd he (by simp)
      | some st2 =>
        rw [hd] at he
        obtain ⟨ds1, h1⟩ := hap dep st st2 hd
        obtain ⟨ds2, h2⟩ :=
          ih { st2 with dependencies := st2.dependencies ++ [(dep, pkg)] } st' he
        refine ⟨ds2 ++ ds1, ?_⟩
        rw [h2]
        show ds2 ++ st2.to_install = ds2 ++ ds1 ++ st.to_install
        rw [h1, List.append_assoc]
    · obtain ⟨ds, hds⟩ :=
        ih { st with pacman_dependencies := st.pacman_dependencies ++ [(pkg, dep)] }
          st' he
      exact ⟨ds, hds⟩

/-- A dependency-mode call (`install_before=True`) only prepends to
`to_install`. -/
theorem add_package_prepends (env : IEnv) :
    ∀ (fuel : Nat) (pkg : String) (st st' : InstallState),
      add_package env fuel pkg false true st = some st' →
      ∃ ds, st'.to_install = ds ++ st.to_install := by
  intro fuel
  induction fuel with
  | zero =>
    intro pkg st st' he
    exact absurd he (by simp [add_package])
  | succ fuel ih =>
    intro pkg st st' he
    rw [add_package] at he
    split at he
    · cases he; exact ⟨[], rfl⟩
    · split at he
      · cases he; exact ⟨[], rfl⟩
      · obtain ⟨ds, hds⟩ := update_deps_extends env _ pkg
          (fun d s s' hd => ih d s s' hd) (env.deps pkg) _ st' he
        refine ⟨ds ++ [pkg], ?_⟩
        rw [hds]
        simp

/-! ## Claim theorems for install.py -/

/-- C2 counterexample: the claim fails on the code in two ways.
First, with `a` depending on `b` and `c` and `c` depending on `b`,
`add_package("a")` queues `["c", "b", "a"]`: the edge `c → b` violates
dependency-before-dependent ordering (`b`, a dependency of `c`, sits
after `c`).  Second, with `a` depending on a locally-managed `b` that
is already installed, `b` is not queued at all. -/
theorem addPackage_dependency_order_counterexample :
    (add_package envC2 5 "a" true false emptyInstall =
       some ⟨["c", "b", "a"], [("b", "a"), ("b", "c"), ("c", "a")], []⟩ ∧
     "b" ∈ envC2.deps "c" ∧ envC2.localPkg "b" = true ∧
     "b" ∈ (["c", "b", "a"] : List String) ∧
     "c" ∈ (["c", "b", "a"] : List String) ∧
     ¬ idxOf "b" ["c", "b", "a"] < idxOf "c" ["c", "b", "a"]) ∧
    (add_package envC2i 3 "a" true false emptyInstall =
       some ⟨["a"], [("b", "a")], []⟩ ∧
     "b" ∈ envC2i.deps "a" ∧ envC2i.localPkg "b" = true ∧
     "b" ∉ (["a"] : List String)) := by
  decide

/-- C2 amended: after `add_package(A)` completes on an empty batch
(with `A` forced or not already installed), `A` is queued and every
other queued package — in particular every locally-managed dependency
that was queued by the recursive walk — has an index in `to_install`
strictly less than `A`'s.  (Dependencies already installed on the
system are not queued, and dependency-before-dependent ordering need
not hold between two queued dependencies.) -/
theorem addPackage_root_queued_last (env : IEnv) (fuel : Nat) (A : String)
    (force : Bool) (st' : InstallState)
    (he : add_package env fuel A force false emptyInstall = some st')
    (hadd : force = true ∨ env.installedP A = false) :
    A ∈ st'.to_install ∧
    ∀ B ∈ st'.to_install, B ≠ A →
      idxOf B st'.to_install < idxOf A st'.to_install := by
  have hnd : st'.to_install.Nodup :=
    add_package_nodup env fuel A force false emptyInstall st' (by simp [emptyInstall]) he
  have hg : (!force && env.installedP A) = false := by
    rcases hadd with rfl | hi
    · simp
    · simp [hi]
  cases fuel with
  | zero => exact absurd he (by simp [add_package])
  | succ fuel =>
    rw [add_package] at he
    rw [hg] at he
    simp only [Bool.false_eq_true, if_false, emptyInstall, List.not_mem_nil,
      if_neg, List.nil_append, Bool.if_false_left] at he
    obtain ⟨ds, hds⟩ := update_deps_extends env _ A
      (fun d s s' hd => add_package_prepends env fuel d s s' hd)
      (env.deps A) _ st' he
    have hds' : st'.to_install = ds ++ [A] := by
      simpa using hds
    have hA : A ∉ ds := by
      rw [hds'] at hnd
      have := List.disjoint_of_nodup_append hnd
      intro hmem
      exact this hmem (List.mem_singleton_self A)
    have hidxA : idxOf A st'.to_install = ds.length := by
      rw [hds', idxOf_append_not_mem hA]
      simp [idxOf]
    refine ⟨by rw [hds']; exact List.mem_append_right ds (List.mem_singleton_self A),
      fun B hB hne => ?_⟩
    have hBds : B ∈ ds := by
      rw [hds'] at hB
      rcases List.mem_append.mp hB with h | h
      · exact h
      · exact absurd (List.mem_singleton.mp h) hne
    rw [hidxA, hds', idxOf_append_left hBds]
    exact idxOf_lt_length hBds

theorem addPackage_root_queued_last_witness :
    add_package envW2 3 "a" true false emptyInstall =
      some ⟨["b", "a"], [("b", "a")], []⟩ ∧
    (true = true ∨ envW2.installedP "a" = false) ∧
    ("a" ∈ (⟨["b", "a"], [("b", "a")], []⟩ : InstallState).to_install ∧
     ∀ B ∈ (⟨["b", "a"], [("b", "a")], []⟩ : InstallState).to_install, B ≠ "a" →
       idxOf B (⟨["b", "a"], [("b", "a")], []⟩ : InstallState).to_install <
         idxOf "a" (⟨["b", "a"], [("b", "a")], []⟩ : InstallState).to_install) :=
  ⟨by decide, Or.inl rfl,
   addPackage_root_queued_last envW2 3 "a" true
     ⟨["b", "a"], [("b", "a")], []⟩ (by decide) (Or.inl rfl)⟩

/-- C6: `to_install` never acquires duplicates: any completed
`add_package` call — a direct second add of an already queued package,
or a dependency pulled in by several dependents — preserves
`Nodup to_install`, so each package has at most one entry. -/
theorem toInstall_no_duplicates (env : IEnv) (fuel : Nat) (pkg : String)
    (force ib : Bool) (st st' : InstallState)
    (h : st.to_install.Nodup)
    (he : add_package env fuel pkg force ib st = some st') :
    st'.to_install.Nodup ∧ ∀ q, st'.to_install.count q ≤ 1 := by
  have hn := add_package_nodup env fuel pkg force ib st st' h he
  exact ⟨hn, fun q => List.nodup_iff_count_le_one.mp hn q⟩

theorem toInstall_no_duplicates_witness :
    stW6.to_install.Nodup ∧
    add_package envW6 2 "a" true false stW6 = some stW6 ∧
    stW6.to_install.count "a" ≤ 1 :=
  ⟨by decide, by decide,
   (toInstall_no_duplicates envW6 2 "a" true false stW6 stW6 (by decide)
     (by decide)).2 "a"⟩

end Aurifere
